import Mathlib

/-!
Verification of the ThingSpeak bridge aggregation/flush engine
(`src/bridge_thingspeak/bridge.py`) and of the SenML measurement decoder
(`src/common/senml.py`).

The embedding is shallow: Python dictionaries become association lists
(first-match lookup, update-in-place-or-append insert, mirroring `dict`
semantics including insertion order), Python floats become rationals,
Python `None` becomes `Option.none`, and the possible outcomes of the
network call `requests.post` become an explicit `NetResult` parameter.
-/

namespace Bridge

/-- A Python runtime value as it can occur inside a decoded SenML entry or a
per-subject state dictionary: a number (`int`/`float`, modelled as `ℚ`),
a boolean, or a string.  Python `None` is modelled as `Option.none` around
this type. -/
inductive Val : Type where
  | num (q : ℚ)
  | boolean (b : Bool)
  | str (s : String)
deriving DecidableEq

/-- Python `int(v)` on a number: truncation toward zero. -/
def pyInt (q : ℚ) : ℤ :=
  if q < 0 then -(⌊-q⌋) else ⌊q⌋

/-- The whitespace characters removed by Python `str.strip()` (the ASCII
ones; the inbound JSON strings are ASCII). -/
def isPySpace (c : Char) : Bool :=
  c = ' ' ∨ c = '\t' ∨ c = '\n' ∨ c = '\r' ∨ c = '\x0b' ∨ c = '\x0c'

/-- Python `s.strip()`. -/
def pyStrip (s : String) : String :=
  ⟨((s.data.dropWhile isPySpace).reverse.dropWhile isPySpace).reverse⟩

/-- ASCII lowercasing of one character, as Python `str.lower` acts on the
token alphabet involved here. -/
def lowerChar (c : Char) : Char :=
  if 'A' ≤ c ∧ c ≤ 'Z' then Char.ofNat (c.toNat + 32) else c

/-- Python `s.lower()`. -/
def pyLower (s : String) : String :=
  ⟨s.data.map lowerChar⟩

/-- `ThingspeakBridge._to_bool` (bridge.py lines 175-180):
booleans pass through; a number maps to `bool(int(v))`, i.e. truthy iff its
truncation toward zero is non-zero; a string is stripped, lowercased and
compared with the tokens "true", "1", "on"; anything else gives `None`. -/
def toBool : Option Val → Option Bool
  | some (Val.boolean b) => some b
  | some (Val.num q) => some (decide (pyInt q ≠ 0))
  | some (Val.str s) => some (decide (pyLower (pyStrip s) ∈ ["true", "1", "on"]))
  | none => none

/-- Round half to even on `ℚ` (the rounding rule of Python `round`). -/
def roundHalfEven (q : ℚ) : ℤ :=
  let f : ℤ := ⌊q⌋
  let r : ℚ := q - f
  if r < 1/2 then f
  else if 1/2 < r then f + 1
  else if 2 ∣ f then f else f + 1

/-- Python `round(x, 2)` modelled on exact rationals. -/
def pyRound2 (q : ℚ) : ℚ :=
  (roundHalfEven (100 * q) : ℚ) / 100

/-! ### Association lists with Python `dict` semantics -/

/-- `d.get(k)` / `d[k]` lookup: the binding of the first matching key. -/
def dictGet {κ α : Type} [DecidableEq κ] (m : List (κ × α)) (k : κ) :
    Option α :=
  match m with
  | [] => none
  | (k1, v) :: rest => if k1 = k then some v else dictGet rest k

/-- `d[k] = v`: replace the binding if the key is present, else append
(Python dicts preserve insertion order). -/
def dictSet {κ α : Type} [DecidableEq κ] (m : List (κ × α)) (k : κ) (v : α) :
    List (κ × α) :=
  match m with
  | [] => [(k, v)]
  | (k1, v1) :: rest =>
      if k1 = k then (k1, v) :: rest else (k1, v1) :: dictSet rest k v

/-- `k in d`. -/
def dictMem {κ α : Type} [DecidableEq κ] (m : List (κ × α)) (k : κ) : Prop :=
  (dictGet m k).isSome = true

instance {κ α : Type} [DecidableEq κ] (m : List (κ × α)) (k : κ) :
    Decidable (dictMem m k) := by
  unfold dictMem; infer_instance

/-- `d.get(k)` on a dictionary whose stored values may themselves be `None`:
an absent key and a key bound to `None` both give `None`, exactly like
`st["vals"].get(name)`. -/
def pyGet (m : List (String × Option Val)) (k : String) : Option Val :=
  (dictGet m k).getD none

/-! ### Character-level helpers for Python string operations -/

/-- Python `s.lstrip("/")` on the character list. -/
def lstripSlash (l : List Char) : List Char :=
  l.dropWhile (· = '/')

/-- Python `s.rstrip("/")`. -/
def rstripSlash (s : String) : String :=
  ⟨(s.data.reverse.dropWhile (· = '/')).reverse⟩

/-- Python `s.split("/")` on the character list, returning the groups of
characters between slashes (empty groups included, as in Python). -/
def splitSlash : List Char → List (List Char)
  | [] => [[]]
  | c :: cs =>
      match splitSlash cs, decide (c = '/') with
      | groups, true => [] :: groups
      | [], false => [[c]]
      | g :: gs, false => (c :: g) :: gs

/-- Python `s.endswith(t)`. -/
def pyEndsWith (s t : String) : Prop :=
  t.data.IsSuffix s.data

instance (s t : String) : Decidable (pyEndsWith s t) := by
  unfold pyEndsWith; infer_instance

/-- Python `s.startswith(t)`. -/
def pyStartsWith (s t : String) : Prop :=
  t.data.IsPrefix s.data

instance (s t : String) : Decidable (pyStartsWith s t) := by
  unfold pyStartsWith; infer_instance

/-! ### The SenML decoder, `common/senml.py` -/

/-- One element of the `"e"` list of a SenML record, as produced by
`json.loads`: every field is optional (`e.get(...)`). -/
structure Entry : Type where
  n : Option String
  u : Option String
  v : Option ℚ
  vb : Option Bool
  vs : Option String
  t : Option ℚ
deriving DecidableEq

/-- One record of a SenML pack: optional base name `bn`, optional base time
`bt`, and a list of entries `e`. -/
structure Record : Type where
  bn : Option String
  bt : Option ℚ
  e : List Entry
deriving DecidableEq

/-- One output tuple `(name, unit, value, timestamp)` of `parse_senml`.
`name` is `Option String` because an entry without `"n"` propagates Python
`None` when the record has no base name. -/
structure Meas : Type where
  name : Option String
  unit : Option String
  val : Option Val
  ts : ℚ
deriving DecidableEq

/-- Python `f"{bn}/{n}"` stringifies `None` as `"None"`. -/
def pyStr (n : Option String) : String :=
  n.getD "None"

/-- The tuple appended by the inner loop of `parse_senml` for one entry,
given the already-computed `bn` and `bt` of the enclosing record. -/
def senmlEntryMeas (bn : String) (bt : ℚ) (e : Entry) : Meas :=
  let ts := bt + e.t.getD 0
  let val : Option Val :=
    match e.v with
    | some q => some (Val.num q)
    | none =>
        match e.vb with
        | some b => some (Val.boolean b)
        | none => e.vs.map Val.str
  let nm : Option String :=
    if bn ≠ "" then some (bn ++ "/" ++ pyStr e.n) else e.n
  ⟨nm, e.u, val, ts⟩

/-- `parse_senml` (senml.py lines 3-19), mirrored loop by loop:
for each record take `bn = rec.get("bn","").rstrip("/")` and
`bt = rec.get("bt",0)`, then append one tuple per entry of `rec.e`. -/
def parseSenml (pack : List Record) : List Meas :=
  pack.foldl
    (fun out rec =>
      rec.e.foldl
        (fun out e =>
          out ++ [senmlEntryMeas (rstripSlash (rec.bn.getD "")) (rec.bt.getD 0) e])
        out)
    []

/-! ### Per-subject aggregation state -/

/-- One accumulator of `st["acc"]`: running sum and running count. -/
structure AccEntry : Type where
  sum : ℚ
  count : ℕ
deriving DecidableEq

/-- One per-subject Aggregation Record, `self.states[(user, room)]`
(bridge.py lines 155-173): last flush time, deferred wakeup deadline,
last-known values dictionary, and accumulator dictionary. -/
structure St : Type where
  last : ℚ
  wakeupDue : ℚ
  vals : List (String × Option Val)
  acc : List (String × AccEntry)
deriving DecidableEq

/-- The freshly created record of `_ensure_state`. -/
def initSt : St where
  last := 0
  wakeupDue := 0
  vals := [("temp", none), ("hum", none), ("bpm", none), ("light", none),
           ("servoFan", none), ("servoCurtain", none), ("LedL", none),
           ("alerts", none)]
  acc := [("temp", ⟨0, 0⟩), ("hum", ⟨0, 0⟩), ("bpm", ⟨0, 0⟩),
          ("light", ⟨0, 0⟩)]

/-- `name.split('/')[-1]`. -/
def lastSegment (s : String) : String :=
  ⟨(splitSlash s.data).getLastD []⟩

/-- `isinstance(val, (int, float))` together with `float(val)`: in Python a
`bool` is an instance of `int`, so `True`/`False` count as numeric with
values `1.0`/`0.0`. -/
def valAsNum : Option Val → Option ℚ
  | some (Val.num q) => some q
  | some (Val.boolean b) => some (if b then 1 else 0)
  | _ => none

/-- The body of the loop of `_process_measures` (bridge.py lines 296-318)
for one decoded tuple: skip unnamed measures, derive the tracked field name
from the last path segment (with the `raw` → `light` alias), update
averageable fields and their accumulators on numeric values, coerce the
actuator fields with `_to_bool`, and force-update the dynamic/control
fields `servoCurtain`, `LedL`, `ServoDHT`. -/
def processMeasure (st : St) (m : Meas) : St :=
  match m.name with
  | none => st
  | some nm =>
      if nm = "" then st
      else
        let base0 := lastSegment nm
        let base := if base0 = "raw" then "light" else base0
        let st1 :=
          if dictMem st.vals base then
            if base = "servoFan" ∨ base = "servoCurtain" ∨ base = "LedL" then
              { st with vals := dictSet st.vals base ((toBool m.val).map Val.boolean) }
            else
              match valAsNum m.val with
              | some q =>
                  let st2 := { st with vals := dictSet st.vals base (some (Val.num q)) }
                  match dictGet st2.acc base with
                  | some a =>
                      { st2 with acc := dictSet st2.acc base ⟨a.sum + q, a.count + 1⟩ }
                  | none => st2
              | none => st
          else st
        if base = "servoCurtain" ∨ base = "LedL" then
          { st1 with vals := dictSet st1.vals base ((toBool m.val).map Val.boolean) }
        else if base = "ServoDHT" then
          { st1 with vals := dictSet st1.vals base m.val }
        else st1

/-- `_process_measures`: fold the loop body over the decoded tuples. -/
def processMeasures (st : St) (ms : List Meas) : St :=
  ms.foldl processMeasure st

/-! ### The flush scheduler, `_send_periodic` and `_post_thingspeak` -/

/-- The result of the one `requests.post` call of `_post_thingspeak`:
either a response with a status code and a body text, or a raised
exception (connection error / timeout). -/
inductive NetResult : Type where
  | ok (status : ℕ) (body : String)
  | raised
deriving DecidableEq

/-- What one `_send_periodic` call did. -/
inductive Outcome : Type where
  /-- rate-limit early return, nothing changed -/
  | rateLimited
  /-- empty payload: network write skipped, timers still advanced -/
  | skippedEmpty
  /-- `_post_thingspeak` had only `api_key` in `params` and sent nothing -/
  | noPost
  /-- the POST was made and the sink accepted it -/
  | sentOk
  /-- the POST was made and the sink answered with body `"0"` -/
  | softRejected
  /-- the POST raised (network error / timeout) -/
  | netError
deriving DecidableEq

/-- The payload assembly loop of `_send_periodic` (bridge.py lines 327-345):
for every configured field name, an averageable field with readings
contributes `round(sum/count, 2)`; otherwise the last known value is used
when one exists; fields with no value are left out. -/
def payloadStep (st : St) (pv : List (String × Val)) (name : String) :
    List (String × Val) :=
  match dictGet st.acc name with
  | some a =>
      if 0 < a.count then
        dictSet pv name (Val.num (pyRound2 (a.sum / (a.count : ℚ))))
      else
        match pyGet st.vals name with
        | some v => dictSet pv name v
        | none => pv
  | none =>
      match pyGet st.vals name with
      | some v => dictSet pv name v
      | none => pv

def payloadValues (fields : List String) (st : St) : List (String × Val) :=
  fields.foldl (payloadStep st) []

/-- The per-field output rule stated by the spec: an averageable field with
readings yields the rounded mean; otherwise the last known value when one
exists; otherwise nothing. -/
def payloadEntry (st : St) (name : String) : Option Val :=
  match dictGet st.acc name with
  | some a =>
      if 0 < a.count then some (Val.num (pyRound2 (a.sum / (a.count : ℚ))))
      else pyGet st.vals name
  | none => pyGet st.vals name

/-- The params dictionary built by `_post_thingspeak` (bridge.py lines
183-192): `api_key` first, then one entry per configured `(name, field)`
pair whose value is present, the three actuator fields encoded as `1`/`0`
by truthiness of `_to_bool`. -/
def buildStep (values : List (String × Val)) (params : List (String × Val))
    (nf : String × String) : List (String × Val) :=
  match dictGet values nf.1 with
  | none => params
  | some v =>
      if nf.1 = "servoFan" ∨ nf.1 = "servoCurtain" ∨ nf.1 = "LedL" then
        dictSet params nf.2
          (Val.num (if toBool (some v) = some true then 1 else 0))
      else dictSet params nf.2 v

def buildParams (apiKey : String) (fieldsMap : List (String × String))
    (values : List (String × Val)) : List (String × Val) :=
  fieldsMap.foldl (buildStep values) [("api_key", Val.str apiKey)]

/-- `_post_thingspeak` (bridge.py lines 183-201): build the params; when
only `api_key` remains, send nothing and return `None`; otherwise perform
the POST.  The value is the params of the request that was sent, if one
was sent. -/
def postThingspeak (apiKey : String) (fieldsMap : List (String × String))
    (values : List (String × Val)) : Option (List (String × Val)) :=
  let params := buildParams apiKey fieldsMap values
  if params.length = 1 then none else some params

/-- The state written by the tail of the `try` block of `_send_periodic`:
`st["last"] = now`, `st["wakeup_due"] = 0.0`, and every accumulator entry
reset to sum 0, count 0. -/
def resetSt (st : St) (now : ℚ) : St :=
  { st with
    last := now
    wakeupDue := 0
    acc := st.acc.map (fun ke => (ke.1, ⟨0, 0⟩)) }

/-- `_send_periodic` (bridge.py lines 320-371).  `forced` is the Python
truthiness of `st.get("wakeup_due", 0.0) and now >= st.get("wakeup_due",
0.0)`; when neither forced nor past the rate limit the call returns with
no change.  Otherwise the payload is assembled; an empty payload skips the
write but advances the timers; a posted request resets the record unless
`requests.post` raised, in which case the `except` branch only logs and
every state update of the `try` tail is skipped. -/
def sendPeriodic (fieldsMap : List (String × String)) (minPeriod : ℚ)
    (apiKey : String) (st : St) (now : ℚ) (net : NetResult) : St × Outcome :=
  let forced : Prop := st.wakeupDue ≠ 0 ∧ st.wakeupDue ≤ now
  if ¬ forced ∧ now - st.last < minPeriod then (st, Outcome.rateLimited)
  else
    let pv := payloadValues (fieldsMap.map Prod.fst) st
    if pv = [] then
      ({ st with last := now, wakeupDue := 0 }, Outcome.skippedEmpty)
    else
      match postThingspeak apiKey fieldsMap pv with
      | none => (resetSt st now, Outcome.noPost)
      | some _ =>
          match net with
          | NetResult.raised => (st, Outcome.netError)
          | NetResult.ok _ body =>
              (resetSt st now,
               if pyStrip body = "0" then Outcome.softRejected
               else Outcome.sentOk)

/-! ### Topic classification, `_on_msg` and `_check_wakeup_due` -/

/-- The `(user, room)` extraction of `_on_msg` (bridge.py lines 388-410) on
the split segments of the topic with its leading slashes stripped.
`SC/alerts/<User>/<Room>/...` takes segments 2 and 3 when at least four
segments exist; otherwise the regex `^SC/([^/]+)/([^/]+)/` requires the
first segment to be `SC`, two non-empty slash-free groups, and a further
`/`; the split-segment conditions below are equivalent to the regex.
The final `if not user or not room` also drops empty strings from the
alerts branch. -/
def parseTopicSegs (parts : List (List Char)) : Option (String × String) :=
  match parts with
  | p0 :: p1 :: rest =>
      -- `t.startswith("SC/alerts/")` holds iff at least three segments
      -- exist and the first two are `SC` and `alerts`.
      if p0 = "SC".data ∧ p1 = "alerts".data ∧ rest ≠ [] then
        match rest with
        | s2 :: s3 :: _ =>
            if s2 = [] ∨ s3 = [] then none else some (⟨s2⟩, ⟨s3⟩)
        | _ => none
      else
        -- the regex path: `^SC/([^/]+)/([^/]+)/` asks for a first segment
        -- `SC`, two non-empty groups, and a fourth segment to witness the
        -- final slash.
        match parts with
        | q0 :: s1 :: s2 :: _ :: _ =>
            if q0 = "SC".data ∧ s1 ≠ [] ∧ s2 ≠ [] then some (⟨s1⟩, ⟨s2⟩)
            else none
        | _ => none
  | _ => none

/-- Topic → subject key: `t = topic.lstrip("/")`, split on `/`, extract. -/
def parseTopic (topic : String) : Option (String × String) :=
  parseTopicSegs (splitSlash (lstripSlash topic.data))

/-- The kinds of inbound payload text, as far as the bridge can tell them
apart.  `senml` is a JSON list of well-shaped SenML records; `alertJson`
is a JSON object, carrying `some statuses` when its `"events"` member is a
list (one optional `"status"` string per dict element, `none` standing for
a non-dict element) and `none` when `"events"` is present but not a list;
`malformed` is any text on which `json.loads` raises or any other JSON
value, for which both `parse_senml` and `_handle_alert_json` end in a
logged, swallowed error. -/
inductive Payload : Type where
  | senml (pack : List Record)
  | alertJson (events : Option (List (Option String)))
  | malformed
deriving DecidableEq

/-- `_parse_senml_safe` (bridge.py lines 257-266): decode errors and
non-list results both collapse to the empty measure list; nothing
propagates. -/
def parseSenmlSafe : Payload → List Meas
  | Payload.senml pack => parseSenml pack
  | _ => []

/-- Whole-bridge mutable state: the per-subject records plus the two
per-subject counters. -/
structure BridgeSt : Type where
  states : List ((String × String) × St)
  alertCounts : List ((String × String) × ℕ)
  windowCounts : List ((String × String) × ℕ)
deriving DecidableEq

/-- `_ensure_state`: create the default record on first sight of a key. -/
def ensureState (m : List ((String × String) × St)) (k : String × String) :
    List ((String × String) × St) :=
  match dictGet m k with
  | some _ => m
  | none => m ++ [(k, initSt)]

/-- `_handle_init_timeshift` (bridge.py lines 248-255). -/
def handleInitTimeshift (b : BridgeSt) (k : String × String) : BridgeSt :=
  let states1 := ensureState b.states k
  let st := (dictGet states1 k).getD initSt
  { states := dictSet states1 k
      { st with vals := dictSet st.vals "alerts" (some (Val.num 0)),
                wakeupDue := 0 }
    alertCounts := dictSet b.alertCounts k 0
    windowCounts := dictSet b.windowCounts k 0 }

/-- `_handle_alert_json` (bridge.py lines 268-294), reached only with a
payload that produced no measures: a non-JSON payload returns after the
caught `json.loads` error; a JSON list makes `data.get` raise, which the
`_on_msg` catch-all swallows with no state change; a JSON object counts one
alert when its `"events"` member is a list containing a dict whose
`"status"` is `"ALERT"`. -/
def handleAlertJson (b : BridgeSt) (k : String × String) (p : Payload) :
    BridgeSt :=
  match p with
  | Payload.alertJson (some statuses) =>
      if (some "ALERT") ∈ statuses then
        let c := (dictGet b.alertCounts k).getD 0 + 1
        let st := (dictGet b.states k).getD initSt
        { b with
          alertCounts := dictSet b.alertCounts k c
          states := dictSet b.states k
            { st with vals := dictSet st.vals "alerts" (some (Val.num (c : ℚ))) } }
      else b
  | _ => b

/-- `_on_msg` (bridge.py lines 388-447).  The call sites of `time.time()`
inside one handler run are identified with the single instant `now`.
Credential resolution (`_get_ts_creds`) is abstracted into the
`creds : Option String` parameter (the write API key, when the catalog has
one).  The second component reports what `_send_periodic` did, when it was
reached. -/
def onMsg (fieldsMap : List (String × String)) (minPeriod : ℚ)
    (b : BridgeSt) (topic : String) (p : Payload) (now : ℚ)
    (creds : Option String) (net : NetResult) : BridgeSt × Option Outcome :=
  match parseTopic topic with
  | none => (b, none)
  | some k =>
      let states1 := ensureState b.states k
      let st := (dictGet states1 k).getD initSt
      if pyEndsWith topic "/initTimeshift" then
        (handleInitTimeshift { b with states := states1 } k, none)
      else
        let st :=
          if pyEndsWith topic "/wakeup" then
            { st with wakeupDue := now + max 0 (minPeriod - (now - st.last)) }
          else st
        let states2 := dictSet states1 k st
        let measures := parseSenmlSafe p
        if measures = [] then
          if pyStartsWith topic "SC/alerts/" then
            (handleAlertJson { b with states := states2 } k p, none)
          else ({ b with states := states2 }, none)
        else
          let st1 := processMeasures st measures
          match creds with
          | none =>
              ({ b with states := dictSet states2 k { st1 with last := now } }, none)
          | some apiKey =>
              let r := sendPeriodic fieldsMap minPeriod apiKey st1 now net
              ({ b with
                 states := dictSet states2 k r.1
                 windowCounts :=
                   if r.2 = Outcome.sentOk then
                     dictSet b.windowCounts k ((dictGet b.windowCounts k).getD 0 + 1)
                   else b.windowCounts },
               some r.2)

/-- One subject of the loop of `_check_wakeup_due` (bridge.py lines
373-386): a pending, reached deadline without credentials only advances the
timers; with credentials it hands over to `_send_periodic`. -/
def tickStep (fieldsMap : List (String × String)) (minPeriod : ℚ)
    (now : ℚ) (creds : Option String) (net : NetResult) (st : St) :
    St × Option Outcome :=
  if 0 < st.wakeupDue ∧ st.wakeupDue ≤ now then
    match creds with
    | none => ({ st with last := now, wakeupDue := 0 }, none)
    | some apiKey =>
        let r := sendPeriodic fieldsMap minPeriod apiKey st now net
        (r.1, some r.2)
  else (st, none)

/-- `_check_wakeup_due`: the background tick applies `tickStep` to every
known subject record.  `credsOf` and `netOf` give the per-subject
credential lookup result and network behaviour at this instant. -/
def checkWakeupDue (fieldsMap : List (String × String)) (minPeriod : ℚ)
    (states : List ((String × String) × St)) (now : ℚ)
    (credsOf : String × String → Option String)
    (netOf : String × String → NetResult) :
    List ((String × String) × St) :=
  states.map (fun kst =>
    (kst.1, (tickStep fieldsMap minPeriod now (credsOf kst.1) (netOf kst.1) kst.2).1))

/-- The flush outcomes of one `_check_wakeup_due` pass, per subject. -/
def checkWakeupOutcomes (fieldsMap : List (String × String)) (minPeriod : ℚ)
    (states : List ((String × String) × St)) (now : ℚ)
    (credsOf : String × String → Option String)
    (netOf : String × String → NetResult) :
    List ((String × String) × Option Outcome) :=
  states.map (fun kst =>
    (kst.1, (tickStep fieldsMap minPeriod now (credsOf kst.1) (netOf kst.1) kst.2).2))

/-! ### Dictionary and fold lemmas -/

/-- `splitSlash` never returns the empty list of groups. -/
theorem splitSlash_ne_nil (l : List Char) : splitSlash l ≠ [] := by
  cases l with
  | nil => simp [splitSlash]
  | cons c cs =>
      simp only [splitSlash]
      rcases h : splitSlash cs with _ | ⟨g, gs⟩ <;> cases hc : decide (c = '/') <;> simp

section DictLemmas

variable {κ α : Type} [DecidableEq κ]

theorem dictGet_dictSet_self (m : List (κ × α)) (k : κ) (v : α) :
    dictGet (dictSet m k v) k = some v := by
  induction m with
  | nil => simp [dictGet, dictSet]
  | cons p rest ih =>
      obtain ⟨k1, v1⟩ := p
      by_cases h : k1 = k
      · subst h; simp [dictGet, dictSet]
      · simp [dictGet, dictSet, h, ih]

theorem dictGet_dictSet_ne (m : List (κ × α)) {k k2 : κ} (v : α)
    (h : k ≠ k2) : dictGet (dictSet m k v) k2 = dictGet m k2 := by
  induction m with
  | nil => simp [dictGet, dictSet, h]
  | cons p rest ih =>
      obtain ⟨k1, v1⟩ := p
      by_cases h1 : k1 = k
      · subst h1; simp [dictGet, dictSet, h]
      · simp only [dictSet, if_neg h1, dictGet]
        by_cases h2 : k1 = k2 <;> simp [h2, ih]

theorem dictSet_eq_of_get (m : List (κ × α)) {k : κ} {v : α}
    (h : dictGet m k = some v) : dictSet m k v = m := by
  induction m with
  | nil => simp [dictGet] at h
  | cons p rest ih =>
      obtain ⟨k1, v1⟩ := p
      by_cases h1 : k1 = k
      · subst h1
        have hv : v1 = v := by simpa [dictGet] using h
        subst hv
        simp [dictSet]
      · simp only [dictGet, if_neg h1] at h
        simp [dictSet, h1, ih h]

theorem dictSet_ne_nil (m : List (κ × α)) (k : κ) (v : α) :
    dictSet m k v ≠ [] := by
  cases m with
  | nil => simp [dictSet]
  | cons p rest =>
      obtain ⟨k1, v1⟩ := p
      by_cases h : k1 = k <;> simp [dictSet, h]

theorem length_le_dictSet (m : List (κ × α)) (k : κ) (v : α) :
    m.length ≤ (dictSet m k v).length := by
  induction m with
  | nil => simp [dictSet]
  | cons p rest ih =>
      obtain ⟨k1, v1⟩ := p
      by_cases h : k1 = k <;> simp [dictSet, h]
      omega

theorem dictGet_eq_none_iff (m : List (κ × α)) (k : κ) :
    dictGet m k = none ↔ k ∉ m.map Prod.fst := by
  induction m with
  | nil => simp [dictGet]
  | cons p rest ih =>
      obtain ⟨k1, v1⟩ := p
      by_cases h : k1 = k
      · subst h; simp [dictGet]
      · simp only [dictGet, if_neg h, List.map_cons, List.mem_cons, ih]
        constructor
        · intro hm hc
          rcases hc with rfl | hc
          · exact h rfl
          · exact hm hc
        · intro hm hx
          exact hm (Or.inr hx)

theorem isSome_dictGet_dictSet (m : List (κ × α)) (k k2 : κ) (v : α)
    (h : (dictGet m k2).isSome = true) :
    (dictGet (dictSet m k v) k2).isSome = true := by
  by_cases hk : k = k2
  · subst hk; simp [dictGet_dictSet_self]
  · rwa [dictGet_dictSet_ne m v hk]

theorem length_ge_two_of_get (m : List (κ × α)) {k1 k2 : κ}
    (hne : k1 ≠ k2) (h1 : (dictGet m k1).isSome = true)
    (h2 : (dictGet m k2).isSome = true) : 2 ≤ m.length := by
  match m with
  | [] => simp [dictGet] at h1
  | [p] =>
      obtain ⟨k, v⟩ := p
      exfalso
      have e1 : k = k1 := by
        by_contra hc
        simp [dictGet, hc] at h1
      have e2 : k = k2 := by
        by_contra hc
        simp [dictGet, hc] at h2
      exact absurd (e1.symm.trans e2) hne
  | p :: q :: rest => simp

theorem keys_dictSet_subset (m : List (κ × α)) (k : κ) (v : α) :
    ∀ x ∈ (dictSet m k v).map Prod.fst, x ∈ m.map Prod.fst ∨ x = k := by
  induction m with
  | nil => simp [dictSet]
  | cons p rest ih =>
      obtain ⟨k1, v1⟩ := p
      by_cases h : k1 = k
      · subst h; simp [dictSet]; tauto
      · intro x hx
        simp only [dictSet, if_neg h, List.map_cons, List.mem_cons] at hx
        rcases hx with hx | hx
        · simp [hx]
        · rcases ih x hx with h2 | h2
          · simp [h2]
          · simp [h2]

theorem nodup_keys_dictSet_of_mem (m : List (κ × α)) (k : κ) (v : α)
    (hmem : (dictGet m k).isSome = true)
    (h : (m.map Prod.fst).Nodup) : ((dictSet m k v).map Prod.fst).Nodup := by
  induction m with
  | nil => simp [dictGet] at hmem
  | cons p rest ih =>
      obtain ⟨k1, v1⟩ := p
      by_cases hk : k1 = k
      · subst hk
        simpa [dictSet] using h
      · simp only [dictGet, if_neg hk] at hmem
        simp only [List.map_cons, List.nodup_cons] at h
        simp only [dictSet, if_neg hk, List.map_cons, List.nodup_cons]
        refine ⟨fun hx => ?_, ih hmem h.2⟩
        rcases keys_dictSet_subset rest k v k1 hx with h2 | h2
        · exact h.1 h2
        · exact hk h2

end DictLemmas

/-- A generic preservation lemma for left folds. -/
theorem foldl_preserve {α β : Type} {P : α → Prop} {f : α → β → α}
    (hf : ∀ a b, P a → P (f a b)) :
    ∀ (l : List β) (a : α), P a → P (l.foldl f a) := by
  intro l
  induction l with
  | nil => intro a ha; simpa using ha
  | cons b rest ih => intro a ha; simpa using ih (f a b) (hf a b ha)

/-- Appending one mapped element per step is the same as `map`. -/
theorem foldl_append_singleton {α β : Type} (g : β → α) :
    ∀ (l : List β) (init : List α),
      l.foldl (fun out x => out ++ [g x]) init = init ++ l.map g := by
  intro l
  induction l with
  | nil => simp
  | cons x rest ih => intro init; simp [ih]

/-- Lookup in a key-preserving pointwise map of an association list. -/
theorem dictGet_map_apply {κ α β : Type} [DecidableEq κ]
    (g : κ → α → β) (m : List (κ × α)) (k : κ) :
    dictGet (m.map (fun p => (p.1, g p.1 p.2))) k =
      (dictGet m k).map (g k) := by
  induction m with
  | nil => simp [dictGet]
  | cons p rest ih =>
      obtain ⟨k1, v1⟩ := p
      by_cases h : k1 = k
      · subst h; simp [dictGet]
      · simp [dictGet, h, ih]

/-! ### C7: the boolean coercion rule -/

/-- C7 counterexample: the claim says a numeric value coerces to `true` iff
it is non-zero, but `_to_bool(0.5)` is `bool(int(0.5)) = bool(0) = False`
although `0.5 ≠ 0`. -/
theorem C7_counterexample :
    toBool (some (Val.num (1/2))) = some false ∧ (1/2 : ℚ) ≠ 0 := by
  constructor
  · simp only [toBool, pyInt]
    norm_num
  · norm_num

/-- C7 (amended): `_to_bool` passes booleans through; a numeric value
coerces to `true` iff its truncation toward zero (`int(v)`) is non-zero;
a string is stripped and lowercased and coerces to `true` iff it then
equals one of the tokens `true`, `1`, `on`; a valueless input gives
`None`. -/
theorem C7_to_bool_characterization :
    (∀ b : Bool, toBool (some (Val.boolean b)) = some b) ∧
    (∀ q : ℚ, (toBool (some (Val.num q)) = some true ↔ pyInt q ≠ 0)) ∧
    (∀ s : String,
      (toBool (some (Val.str s)) = some true ↔
        pyLower (pyStrip s) ∈ ["true", "1", "on"])) ∧
    toBool none = none := by
  refine ⟨fun b => rfl, fun q => ?_, fun s => ?_, rfl⟩
  · simp [toBool]
  · simp [toBool]

/-- C7 witness: the characterization applied at the numeric value `3` and
the string `" ON "`. -/
theorem C7_witness :
    toBool (some (Val.num 3)) = some true ∧
    toBool (some (Val.str " ON ")) = some true := by
  constructor
  · exact (C7_to_bool_characterization.2.1 3).mpr (by norm_num [pyInt])
  · exact (C7_to_bool_characterization.2.2.1 " ON ").mpr (by decide)

/-! ### C5: the decoder on well-formed packs -/

/-- Unfolding the two nested loops of `parse_senml` into one `flatMap`. -/
theorem parseSenml_fold_eq (g : Record → Entry → Meas) :
    ∀ (pack : List Record) (init : List Meas),
      pack.foldl
        (fun out rec => rec.e.foldl (fun o e => o ++ [g rec e]) out) init =
      init ++ pack.flatMap (fun rec => rec.e.map (g rec)) := by
  intro pack
  induction pack with
  | nil => simp
  | cons rec rest ih =>
      intro init
      rw [List.foldl_cons, ih, foldl_append_singleton, List.flatMap_cons,
        List.append_assoc]

/-- C5: on a well-formed pack (every entry carries a name), the decoder
returns exactly one tuple per entry, with
`ts = recordBaseTime + entryRelativeTime`, the name prefixed by the
(slash-stripped) base name when one is present, and the value resolved as
the numeric field, else the boolean field, else the string field. -/
theorem C5_decoder_shape (pack : List Record)
    (hwf : ∀ rec ∈ pack, ∀ e ∈ rec.e, e.n.isSome = true) :
    parseSenml pack =
      pack.flatMap (fun rec =>
        rec.e.map (fun e =>
          { name :=
              if rstripSlash (rec.bn.getD "") = "" then e.n
              else some (rstripSlash (rec.bn.getD "") ++ "/" ++ e.n.getD "")
            unit := e.u
            val := (e.v.map Val.num).or
              ((e.vb.map Val.boolean).or (e.vs.map Val.str))
            ts := rec.bt.getD 0 + e.t.getD 0 })) := by
  unfold parseSenml
  rw [parseSenml_fold_eq]
  rw [List.nil_append]
  apply List.flatMap_congr
  intro rec hrec
  apply List.map_congr_left
  intro e he
  obtain ⟨nm, hnm⟩ := Option.isSome_iff_exists.mp (hwf rec hrec e he)
  simp only [senmlEntryMeas, pyStr, hnm, Option.getD_some, Meas.mk.injEq]
  refine ⟨?_, trivial, ?_, trivial⟩
  · by_cases hbn : rstripSlash (rec.bn.getD "") = "" <;> simp [hbn]
  · cases hv : e.v <;> cases hvb : e.vb <;> cases hvs : e.vs <;>
      simp [Option.or]

/-- C5 witness: the decoder shape applied to a concrete two-entry pack. -/
theorem C5_witness :
    parseSenml
        [⟨some "dev1/", some 100,
          [⟨some "temp", some "Cel", some 20, none, none, some 5⟩,
           ⟨some "fan", none, none, some true, some "x", none⟩]⟩] =
      [⟨some "dev1/temp", some "Cel", some (Val.num 20), 100 + 5⟩,
       ⟨some "dev1/fan", none, some (Val.boolean true), 100 + 0⟩] := by
  rw [C5_decoder_shape _ (by decide)]
  rfl

/-! ### C4: the per-field payload rule -/

theorem dictGet_payloadStep_ne (st : St) (pv : List (String × Val))
    {n x : String} (h : n ≠ x) :
    dictGet (payloadStep st pv n) x = dictGet pv x := by
  unfold payloadStep
  cases dictGet st.acc n with
  | none =>
      cases pyGet st.vals n with
      | none => rfl
      | some v => exact dictGet_dictSet_ne pv v h
  | some a =>
      by_cases hc : 0 < a.count
      · simp only [if_pos hc]
        exact dictGet_dictSet_ne pv _ h
      · simp only [if_neg hc]
        cases pyGet st.vals n with
        | none => rfl
        | some v => exact dictGet_dictSet_ne pv v h

theorem dictGet_payloadStep_self (st : St) (pv : List (String × Val))
    (n : String) :
    dictGet (payloadStep st pv n) n = (payloadEntry st n).or (dictGet pv n) := by
  unfold payloadStep payloadEntry
  cases dictGet st.acc n with
  | none =>
      cases pyGet st.vals n with
      | none => rfl
      | some v => simp [dictGet_dictSet_self, Option.or]
  | some a =>
      by_cases hc : 0 < a.count
      · simp [if_pos hc, dictGet_dictSet_self, Option.or]
      · simp only [if_neg hc]
        cases pyGet st.vals n with
        | none => rfl
        | some v => simp [dictGet_dictSet_self, Option.or]

theorem payload_fold_get (st : St) (name : String) :
    ∀ (fields : List String) (pv : List (String × Val)), fields.Nodup →
      (∀ x ∈ fields, dictGet pv x = none) →
      dictGet (fields.foldl (payloadStep st) pv) name =
        if name ∈ fields then payloadEntry st name else dictGet pv name := by
  intro fields
  induction fields with
  | nil => intro pv _ _; simp
  | cons n rest ih =>
      intro pv hnd hpv
      have hndr : rest.Nodup := (List.nodup_cons.mp hnd).2
      have hnn : n ∉ rest := (List.nodup_cons.mp hnd).1
      have hstep : ∀ x ∈ rest, dictGet (payloadStep st pv n) x = none := by
        intro x hx
        have hne : n ≠ x := fun he => hnn (he ▸ hx)
        rw [dictGet_payloadStep_ne st pv hne]
        exact hpv x (List.mem_cons_of_mem n hx)
      rw [List.foldl_cons, ih (payloadStep st pv n) hndr hstep]
      by_cases hmem : name ∈ rest
      · simp [hmem, List.mem_cons_of_mem n hmem]
      · by_cases heq : name = n
        · subst heq
          rw [if_neg hmem, if_pos (List.mem_cons_self name rest),
            dictGet_payloadStep_self, hpv name (List.mem_cons_self name rest),
            Option.or_none]
        · have : name ∉ (n :: rest) := by
            simp [heq, hmem, fun h : name = n => heq h]
          rw [if_neg hmem, if_neg this,
            dictGet_payloadStep_ne st pv (fun h => heq h.symm)]

/-- C4: for distinct configured field names, the assembled payload binds a
field to the rounded mean when it is averageable with a positive count,
else to its last known value when one exists, and omits it otherwise;
names outside the configuration never appear. -/
theorem C4_payload_rule (fields : List String) (st : St)
    (hnd : fields.Nodup) (name : String) :
    dictGet (payloadValues fields st) name =
      if name ∈ fields then payloadEntry st name else none := by
  unfold payloadValues
  rw [payload_fold_get st name fields [] hnd (by intro x _; rfl)]
  by_cases h : name ∈ fields <;> simp [h, dictGet]

/-- C4 witness: a state in which `temp` has two readings summing to 40,
`hum` has no readings in the window but a prior value 19, `servoFan` has a
prior boolean value, and `alerts` was never seen. -/
theorem C4_witness :
    dictGet
        (payloadValues ["temp", "hum", "servoFan", "alerts"]
          { last := 0, wakeupDue := 0
            vals := [("temp", some (Val.num 22)), ("hum", some (Val.num 19)),
                     ("servoFan", some (Val.boolean true)), ("alerts", none)]
            acc := [("temp", ⟨40, 2⟩), ("hum", ⟨0, 0⟩)] })
        "hum" = some (Val.num 19) ∧
    dictGet
        (payloadValues ["temp", "hum", "servoFan", "alerts"]
          { last := 0, wakeupDue := 0
            vals := [("temp", some (Val.num 22)), ("hum", some (Val.num 19)),
                     ("servoFan", some (Val.boolean true)), ("alerts", none)]
            acc := [("temp", ⟨40, 2⟩), ("hum", ⟨0, 0⟩)] })
        "alerts" = none := by
  constructor
  · rw [C4_payload_rule _ _ (by decide) "hum"]
    rfl
  · rw [C4_payload_rule _ _ (by decide) "alerts"]
    rfl

/-! ### C10: a null value overwrites an actuator field -/

/-- C10: (1) a decoded measurement whose derived field name is one of the
tracked actuator fields but which carries no coercible value overwrites the
field's last known value with null (`_to_bool` returns `None` and the
assignment stores it); (2) a field whose last known value is null and which
has no accumulator is omitted from the assembled payload; (3) no flush ever
modifies the last-known-value dictionary, so the omission persists until a
new measurement for the field arrives. -/
theorem C10_null_overwrite :
    (∀ (st : St) (u : Option String) (ts : ℚ) (nm base : String),
        nm ≠ "" →
        (if lastSegment nm = "raw" then "light" else lastSegment nm) = base →
        (base = "servoFan" ∨ base = "servoCurtain" ∨ base = "LedL") →
        dictMem st.vals base →
        dictGet (processMeasure st ⟨some nm, u, none, ts⟩).vals base
          = some none) ∧
    (∀ (fields : List String) (st : St) (name : String),
        pyGet st.vals name = none → dictGet st.acc name = none →
        dictGet (payloadValues fields st) name = none) ∧
    (∀ (fieldsMap : List (String × String)) (minPeriod : ℚ) (apiKey : String)
        (st : St) (now : ℚ) (net : NetResult),
        (sendPeriodic fieldsMap minPeriod apiKey st now net).1.vals
          = st.vals) := by
  refine ⟨?_, ?_, ?_⟩
  · intro st u ts nm base hnm hb hset hmem
    simp only [processMeasure, hb, if_neg hnm]
    have htb : (toBool (none : Option Val)).map Val.boolean = none := rfl
    rcases hset with h | h | h <;> subst h <;>
      simp [hmem, htb, dictGet_dictSet_self]
  · intro fields st name hvals hacc
    unfold payloadValues
    refine foldl_preserve (P := fun pv => dictGet pv name = none) ?_ fields [] rfl
    intro pv n hpv
    by_cases h : n = name
    · subst h
      rw [dictGet_payloadStep_self, hpv]
      simp [payloadEntry, hacc, hvals, Option.or]
    · rw [dictGet_payloadStep_ne st pv h, hpv]
  · intro fieldsMap minPeriod apiKey st now net
    unfold sendPeriodic
    dsimp only
    split
    · rfl
    · split
      · rfl
      · split
        · rfl
        · split
          · rfl
          · rfl

/-- C10 witness: a `servoCurtain` measurement with no value nulls the
stored value, and the payload for a nulled, accumulator-free field is
empty. -/
theorem C10_witness :
    dictGet
        (processMeasure
          { last := 0, wakeupDue := 0,
            vals := [("servoCurtain", some (Val.boolean true))], acc := [] }
          ⟨some "dev/servoCurtain", none, none, 7⟩).vals
        "servoCurtain" = some none ∧
    dictGet
        (payloadValues ["servoCurtain"]
          { last := 0, wakeupDue := 0, vals := [("servoCurtain", none)],
            acc := [] })
        "servoCurtain" = none := by
  constructor
  · exact C10_null_overwrite.1 _ none 7 "dev/servoCurtain" "servoCurtain"
      (by decide) (by decide) (by decide) (by decide)
  · exact C10_null_overwrite.2.1 ["servoCurtain"] _ "servoCurtain" rfl rfl

/-! ### C8: empty payloads skip the write but advance the timers -/

/-- C8: (1) an eligible flush (deadline reached or rate-limit window
elapsed) whose assembled payload is empty performs no network write and
leaves the record unchanged except for `lastFlushAt = now` and a cleared
deadline; (2) when no configured field resolves a value, `_post_thingspeak`
sends nothing at all — a request carrying only the credential parameter
never goes out. -/
theorem C8_empty_payload :
    (∀ (fieldsMap : List (String × String)) (minPeriod : ℚ) (apiKey : String)
        (st : St) (now : ℚ) (net : NetResult),
        ((st.wakeupDue ≠ 0 ∧ st.wakeupDue ≤ now) ∨ minPeriod ≤ now - st.last) →
        payloadValues (fieldsMap.map Prod.fst) st = [] →
        sendPeriodic fieldsMap minPeriod apiKey st now net =
          ({ st with last := now, wakeupDue := 0 }, Outcome.skippedEmpty)) ∧
    (∀ (apiKey : String) (fieldsMap : List (String × String))
        (values : List (String × Val)),
        (∀ nf ∈ fieldsMap, dictGet values nf.1 = none) →
        postThingspeak apiKey fieldsMap values = none) := by
  constructor
  · intro fieldsMap minPeriod apiKey st now net helig hpv
    unfold sendPeriodic
    dsimp only
    rw [if_neg, if_pos hpv]
    rcases helig with h | h
    · exact fun hc => hc.1 h
    · exact fun hc => absurd hc.2 (not_lt.mpr h)
  · intro apiKey fieldsMap values hmiss
    have hfold : ∀ (fm : List (String × String)) (params : List (String × Val)),
        (∀ nf ∈ fm, dictGet values nf.1 = none) →
        fm.foldl (buildStep values) params = params := by
      intro fm
      induction fm with
      | nil => intro params _; rfl
      | cons nf rest ih =>
          intro params h
          rw [List.foldl_cons]
          have hstep : buildStep values params nf = params := by
            unfold buildStep
            rw [h nf (List.mem_cons_self nf rest)]
          rw [hstep]
          exact ih params (fun x hx => h x (List.mem_cons_of_mem nf hx))
    unfold postThingspeak buildParams
    rw [hfold fieldsMap _ hmiss]
    rfl

/-- C8 witness: a fresh record at `now = 15` with `minPeriod = 10` skips
the write on its empty payload but still advances the timers, and a lookup
table resolving nothing produces no request. -/
theorem C8_witness :
    sendPeriodic [("temp", "field1")] 10 "k" initSt 15 NetResult.raised =
      ({ initSt with last := 15, wakeupDue := 0 }, Outcome.skippedEmpty) ∧
    postThingspeak "k" [("temp", "field1")] [] = none := by
  constructor
  · exact C8_empty_payload.1 [("temp", "field1")] 10 "k" initSt 15
      NetResult.raised (Or.inr (by norm_num [initSt])) rfl
  · exact C8_empty_payload.2 "k" [("temp", "field1")] []
      (fun nf _ => rfl)

/-! ### C6: malformed payloads are dropped without touching state -/

/-- C6: a payload that is not the expected SenML envelope decodes to the
empty measure list (`_parse_senml_safe` swallows the error), and the
handler returns with the subject's aggregation record — and the whole
bridge state — exactly as it was, for any telemetry topic (one that is not
a control suffix and not an alert topic). -/
theorem C6_malformed_dropped
    (fieldsMap : List (String × String)) (minPeriod : ℚ) (b : BridgeSt)
    (topic : String) (key : String × String) (st : St) (now : ℚ)
    (creds : Option String) (net : NetResult)
    (hkey : parseTopic topic = some key)
    (hst : dictGet b.states key = some st)
    (hinit : ¬ pyEndsWith topic "/initTimeshift")
    (hwake : ¬ pyEndsWith topic "/wakeup")
    (halert : ¬ pyStartsWith topic "SC/alerts/") :
    parseSenmlSafe Payload.malformed = [] ∧
    onMsg fieldsMap minPeriod b topic Payload.malformed now creds net
      = (b, none) := by
  refine ⟨rfl, ?_⟩
  unfold onMsg
  rw [hkey]
  have hens : ensureState b.states key = b.states := by
    unfold ensureState
    rw [hst]
  dsimp only
  rw [hens, hst]
  dsimp only [Option.getD_some]
  rw [if_neg hinit, if_neg hwake, dictSet_eq_of_get b.states hst]
  have hmeas : parseSenmlSafe Payload.malformed = [] := rfl
  rw [hmeas]
  rw [if_pos rfl, if_neg halert]

/-- C6 witness: a malformed payload on `SC/U1/R1/temp` leaves a one-record
bridge state untouched. -/
theorem C6_witness :
    parseSenmlSafe Payload.malformed = [] ∧
    onMsg [("temp", "field1")] 10
        ⟨[(("U1", "R1"), initSt)], [], []⟩ "SC/U1/R1/temp" Payload.malformed
        5 none NetResult.raised
      = (⟨[(("U1", "R1"), initSt)], [], []⟩, none) :=
  C6_malformed_dropped [("temp", "field1")] 10
    ⟨[(("U1", "R1"), initSt)], [], []⟩ "SC/U1/R1/temp" ("U1", "R1") initSt
    5 none NetResult.raised (by decide) rfl (by decide) (by decide) (by decide)

/-! ### C9: subject keys are the verbatim topic segments -/

theorem splitSlash_append (g rest : List Char) (hg : '/' ∉ g) :
    splitSlash (g ++ '/' :: rest) = g :: splitSlash rest := by
  induction g with
  | nil => simp [splitSlash]
  | cons c gtail ih =>
      have hc : ¬ c = '/' := fun h => hg (by simp [h])
      have ihh := ih (fun h => hg (List.mem_cons_of_mem c h))
      rw [List.cons_append, splitSlash, ihh, decide_eq_false hc]

theorem dictGet_append_of_none {κ α : Type} [DecidableEq κ]
    {m1 : List (κ × α)} (m2 : List (κ × α)) {k : κ}
    (h : dictGet m1 k = none) : dictGet (m1 ++ m2) k = dictGet m2 k := by
  induction m1 with
  | nil => rfl
  | cons p rest ih =>
      obtain ⟨k1, v1⟩ := p
      by_cases hk : k1 = k
      · simp [dictGet, hk] at h
      · simp only [dictGet, if_neg hk] at h
        simp only [List.cons_append, dictGet, if_neg hk]
        exact ih h

/-- C9 (amended): the extracted subject key is the verbatim pair of topic
segments — (1) for any slash-free, non-empty `u ≠ "alerts"` and `r`, a
topic `SC/u/r/...` yields exactly `(u, r)` with no case folding; (2)
leading slashes are stripped, so they do not affect the key; (3) the state
table is keyed by the exact pair: `_ensure_state` keeps the keys distinct
and binds the requested key, so at most one Aggregation Record exists per
exact key.  Case variants of the ids are distinct keys (see the
counterexample). -/
theorem C9_verbatim_keys :
    (∀ (u r rest : List Char), '/' ∉ u → '/' ∉ r → u ≠ [] → r ≠ [] →
      u ≠ "alerts".data →
      parseTopic ⟨'S' :: 'C' :: '/' :: (u ++ '/' :: (r ++ '/' :: rest))⟩
        = some (⟨u⟩, ⟨r⟩)) ∧
    (∀ s : String, parseTopic ⟨'/' :: s.data⟩ = parseTopic s) ∧
    (∀ (m : List ((String × String) × St)) (k : String × String),
      (m.map Prod.fst).Nodup →
      ((ensureState m k).map Prod.fst).Nodup ∧
      (dictGet (ensureState m k) k).isSome = true) := by
  refine ⟨?_, ?_, ?_⟩
  · intro u r rest hu hr hune hrne hual
    unfold parseTopic lstripSlash
    rw [List.dropWhile_cons, if_neg (by decide)]
    have h1 : 'S' :: 'C' :: '/' :: (u ++ '/' :: (r ++ '/' :: rest))
        = ['S', 'C'] ++ '/' :: (u ++ '/' :: (r ++ '/' :: rest)) := rfl
    rw [h1, splitSlash_append ['S', 'C'] _ (by decide),
      splitSlash_append u _ hu, splitSlash_append r _ hr]
    rcases hg : splitSlash rest with _ | ⟨g, gs⟩
    · exact absurd hg (splitSlash_ne_nil rest)
    · unfold parseTopicSegs
      dsimp only
      rw [if_neg (fun hc => hual hc.2.1), if_pos ⟨by decide, hune, hrne⟩]
  · intro s
    unfold parseTopic lstripSlash
    simp
  · intro m k hnd
    unfold ensureState
    rcases hg : dictGet m k with _ | v
    · constructor
      · have hk : k ∉ m.map Prod.fst := (dictGet_eq_none_iff m k).mp hg
        simp [List.nodup_append, hnd, hk]
      · rw [dictGet_append_of_none [(k, initSt)] hg]
        simp [dictGet]
    · exact ⟨hnd, by simp [hg]⟩

/-- C9 counterexample: two topics whose user and room ids differ only by
letter case produce different subject keys, and feeding both to the state
table creates two Aggregation Records — the claimed normalization does not
exist. -/
theorem C9_counterexample :
    parseTopic "SC/U1/R1/temp" = some ("U1", "R1") ∧
    parseTopic "SC/u1/r1/temp" = some ("u1", "r1") ∧
    (("U1", "R1") : String × String) ≠ ("u1", "r1") ∧
    (ensureState (ensureState [] ("U1", "R1")) ("u1", "r1")).length = 2 := by
  refine ⟨by decide, by decide, by decide, rfl⟩

/-- C9 witness: the verbatim-extraction rule applied to `SC/U1/R1/temp`,
the leading-slash rule applied to it, and the one-record-per-key rule on a
singleton table. -/
theorem C9_witness :
    parseTopic "SC/U1/R1/temp" = some ("U1", "R1") ∧
    parseTopic "/SC/U1/R1/temp" = parseTopic "SC/U1/R1/temp" ∧
    ((ensureState [(("U1", "R1"), initSt)] ("U1", "R1")).map
        Prod.fst).Nodup := by
  refine ⟨?_, ?_, ?_⟩
  · exact C9_verbatim_keys.1 "U1".data "R1".data "temp".data
      (by decide) (by decide) (by decide) (by decide) (by decide)
  · exact C9_verbatim_keys.2.1 "SC/U1/R1/temp"
  · exact (C9_verbatim_keys.2.2 [(("U1", "R1"), initSt)] ("U1", "R1")
      (by decide)).1

/-! ### C1: what a flush attempt does to the record -/

theorem dictGet_of_mem_nodup {κ α : Type} [DecidableEq κ]
    {m : List (κ × α)} {k : κ} {v : α}
    (hnd : (m.map Prod.fst).Nodup) (hmem : (k, v) ∈ m) :
    dictGet m k = some v := by
  induction m with
  | nil => cases hmem
  | cons p rest ih =>
      obtain ⟨k1, v1⟩ := p
      rcases List.mem_cons.mp hmem with he | hm
      · injection he with he1 he2
        subst he1; subst he2
        simp [dictGet]
      · have hk1 : k1 ∉ rest.map Prod.fst := (List.nodup_cons.mp hnd).1
        have hne : ¬ k1 = k := by
          intro he
          exact hk1 (he ▸ List.mem_map_of_mem Prod.fst hm)
        simp only [dictGet, if_neg hne]
        exact ih (List.nodup_cons.mp hnd).2 hm

theorem payloadStep_ne_nil (st : St) (pv : List (String × Val)) (n : String)
    (h : pv ≠ []) : payloadStep st pv n ≠ [] := by
  unfold payloadStep
  cases dictGet st.acc n with
  | none =>
      cases pyGet st.vals n with
      | none => exact h
      | some v => exact dictSet_ne_nil pv n v
  | some a =>
      by_cases hc : 0 < a.count
      · simp only [if_pos hc]
        exact dictSet_ne_nil pv n _
      · simp only [if_neg hc]
        cases pyGet st.vals n with
        | none => exact h
        | some v => exact dictSet_ne_nil pv n v

theorem payloadValues_ne_nil (st : St) {fields : List String} {name : String}
    {a : AccEntry} (hmem : name ∈ fields)
    (hacc : dictGet st.acc name = some a) (hc : 0 < a.count) :
    payloadValues fields st ≠ [] := by
  obtain ⟨l1, l2, rfl⟩ := List.append_of_mem hmem
  unfold payloadValues
  rw [List.foldl_append, List.foldl_cons]
  refine foldl_preserve (P := fun pv => pv ≠ []) (payloadStep_ne_nil st) l2 _ ?_
  have hstep : payloadStep st (l1.foldl (payloadStep st) []) name ≠ [] := by
    unfold payloadStep
    rw [hacc]
    simp only [if_pos hc]
    exact dictSet_ne_nil _ name _
  exact hstep

theorem acc_resetSt (st : St) (now : ℚ) :
    ∀ ke ∈ (resetSt st now).acc, ke.2 = (⟨0, 0⟩ : AccEntry) := by
  intro ke hke
  unfold resetSt at hke
  simp only [List.mem_map] at hke
  obtain ⟨p, _, hp⟩ := hke
  rw [← hp]

/-- C1 (amended): after any flush attempt that passes the eligibility check
and does not end in a raised network exception — a successful write, a sink
soft rejection, a non-2xx response, a skipped-empty payload, or the
nothing-to-post path — `lastFlushAt` is advanced to `now`, the deferred
deadline is cleared, and every accumulator entry is `(0, 0)` (the
skipped-empty path does not run the reset loop, but all counts are then
already 0, hence with the sum/count pairing invariant all sums are 0).
When the write raises (network error / timeout), the `except` branch
changes nothing: accumulators are NOT reset, `lastFlushAt` is NOT advanced
and the deadline survives. -/
theorem C1_reset_after_flush (fieldsMap : List (String × String))
    (minPeriod : ℚ) (apiKey : String) (st : St) (now : ℚ) (net : NetResult)
    (hkeys : ∀ ke ∈ st.acc, ke.1 ∈ fieldsMap.map Prod.fst)
    (hnd : (st.acc.map Prod.fst).Nodup)
    (hinv : ∀ ke ∈ st.acc, ke.2.count = 0 → ke.2.sum = 0) :
    ((sendPeriodic fieldsMap minPeriod apiKey st now net).2 ≠
        Outcome.rateLimited →
      (sendPeriodic fieldsMap minPeriod apiKey st now net).2 ≠
        Outcome.netError →
      (sendPeriodic fieldsMap minPeriod apiKey st now net).1.last = now ∧
      (sendPeriodic fieldsMap minPeriod apiKey st now net).1.wakeupDue = 0 ∧
      ∀ ke ∈ (sendPeriodic fieldsMap minPeriod apiKey st now net).1.acc,
        ke.2 = (⟨0, 0⟩ : AccEntry)) ∧
    ((sendPeriodic fieldsMap minPeriod apiKey st now net).2 =
        Outcome.netError →
      (sendPeriodic fieldsMap minPeriod apiKey st now net).1 = st) := by
  unfold sendPeriodic
  dsimp only
  by_cases hrl : ¬ (st.wakeupDue ≠ 0 ∧ st.wakeupDue ≤ now) ∧
      now - st.last < minPeriod
  · rw [if_pos hrl]
    exact ⟨fun h _ => absurd rfl h, fun h => nomatch h⟩
  · rw [if_neg hrl]
    by_cases hpv : payloadValues (fieldsMap.map Prod.fst) st = []
    · rw [if_pos hpv]
      refine ⟨fun _ _ => ⟨rfl, rfl, ?_⟩, fun h => nomatch h⟩
      intro ke hke
      obtain ⟨k, a⟩ := ke
      have hget : dictGet st.acc k = some a := dictGet_of_mem_nodup hnd hke
      have hcount : a.count = 0 := by
        by_contra hc
        exact payloadValues_ne_nil st (hkeys (k, a) hke) hget
          (Nat.pos_of_ne_zero hc) hpv
      have hsum : a.sum = 0 := hinv (k, a) hke hcount
      cases a
      simp_all
    · rw [if_neg hpv]
      cases hpost : postThingspeak apiKey fieldsMap
          (payloadValues (fieldsMap.map Prod.fst) st) with
      | none =>
          exact ⟨fun _ _ => ⟨rfl, rfl, acc_resetSt st now⟩, fun h => nomatch h⟩
      | some params =>
          cases net with
          | raised => exact ⟨fun _ h => absurd rfl h, fun _ => rfl⟩
          | ok code body =>
              dsimp only
              by_cases hb : pyStrip body = "0"
              · rw [if_pos hb]
                exact ⟨fun _ _ => ⟨rfl, rfl, acc_resetSt st now⟩,
                  fun h => nomatch h⟩
              · rw [if_neg hb]
                exact ⟨fun _ _ => ⟨rfl, rfl, acc_resetSt st now⟩,
                  fun h => nomatch h⟩

/-- C1 counterexample: an eligible flush with a non-empty payload whose
POST raises (network error / timeout) leaves the record exactly as it was:
the `temp` accumulator still holds `(sum 20, count 1)`, `lastFlushAt` is
still `0 ≠ now = 15`, and the deferred deadline `3` is not cleared — the
claim that every flush attempt, including a sink-write failure, resets the
accumulators and advances the timers is false on the code. -/
theorem C1_counterexample :
    sendPeriodic [("temp", "field1")] 10 "k"
        { last := 0, wakeupDue := 3,
          vals := [("temp", some (Val.num 20))],
          acc := [("temp", ⟨20, 1⟩)] } 15 NetResult.raised
      = ({ last := 0, wakeupDue := 3,
           vals := [("temp", some (Val.num 20))],
           acc := [("temp", ⟨20, 1⟩)] }, Outcome.netError) ∧
    (⟨20, 1⟩ : AccEntry).count ≠ 0 ∧ (0 : ℚ) ≠ 15 ∧ (3 : ℚ) ≠ 0 := by
  refine ⟨?_, by decide, by norm_num, by norm_num⟩
  unfold sendPeriodic
  dsimp only
  rw [if_neg (fun hc => hc.1 ⟨by norm_num, by norm_num⟩), if_neg (by decide)]
  rfl

/-- C1 witness: the amended statement applied to a successful write at
`now = 15` on a record with one pending `temp` reading, and to the
exception case of the counterexample state. -/
theorem C1_witness :
    ((sendPeriodic [("temp", "field1")] 10 "k"
        { last := 0, wakeupDue := 0,
          vals := [("temp", some (Val.num 20))],
          acc := [("temp", ⟨20, 1⟩)] } 15 (NetResult.ok 200 "77")).1.last = 15 ∧
      (sendPeriodic [("temp", "field1")] 10 "k"
        { last := 0, wakeupDue := 0,
          vals := [("temp", some (Val.num 20))],
          acc := [("temp", ⟨20, 1⟩)] } 15
          (NetResult.ok 200 "77")).1.wakeupDue = 0 ∧
      ∀ ke ∈ (sendPeriodic [("temp", "field1")] 10 "k"
        { last := 0, wakeupDue := 0,
          vals := [("temp", some (Val.num 20))],
          acc := [("temp", ⟨20, 1⟩)] } 15 (NetResult.ok 200 "77")).1.acc,
        ke.2 = (⟨0, 0⟩ : AccEntry)) := by
  have hout : (sendPeriodic [("temp", "field1")] 10 "k"
      { last := 0, wakeupDue := 0,
        vals := [("temp", some (Val.num 20))],
        acc := [("temp", ⟨20, 1⟩)] } 15 (NetResult.ok 200 "77")).2
      = Outcome.sentOk := by
    unfold sendPeriodic
    dsimp only
    rw [if_neg (fun hc => absurd hc.2 (by norm_num)), if_neg (by decide)]
    rfl
  exact (C1_reset_after_flush [("temp", "field1")] 10 "k"
      { last := 0, wakeupDue := 0,
        vals := [("temp", some (Val.num 20))],
        acc := [("temp", ⟨20, 1⟩)] } 15 (NetResult.ok 200 "77")
      (by decide) (by decide) (by decide)).1
    (by rw [hout]; exact fun h => nomatch h)
    (by rw [hout]; exact fun h => nomatch h)

/-! ### C3: the rate limiter -/

theorem processMeasure_timers (st : St) (m : Meas) :
    (processMeasure st m).last = st.last ∧
    (processMeasure st m).wakeupDue = st.wakeupDue := by
  unfold processMeasure
  constructor <;> dsimp only <;> (repeat' split) <;> rfl

theorem processMeasures_timers (ms : List Meas) :
    ∀ st : St, (processMeasures st ms).last = st.last ∧
      (processMeasures st ms).wakeupDue = st.wakeupDue := by
  induction ms with
  | nil => intro st; exact ⟨rfl, rfl⟩
  | cons m rest ih =>
      intro st
      unfold processMeasures at ih ⊢
      rw [List.foldl_cons]
      refine ⟨(ih (processMeasure st m)).1.trans (processMeasure_timers st m).1,
        (ih (processMeasure st m)).2.trans (processMeasure_timers st m).2⟩

theorem payload_fold_keys (st : St) (l0 : List String) :
    ∀ (fields : List String) (pv : List (String × Val)),
      (∀ p ∈ pv, p.1 ∈ l0) → (∀ n ∈ fields, n ∈ l0) →
      ∀ p ∈ fields.foldl (payloadStep st) pv, p.1 ∈ l0 := by
  intro fields
  induction fields with
  | nil => intro pv hpv _; simpa using hpv
  | cons n rest ih =>
      intro pv hpv hf
      rw [List.foldl_cons]
      refine ih (payloadStep st pv n) ?_
        (fun x hx => hf x (List.mem_cons_of_mem n hx))
      intro p hp
      have hkey : p.1 ∈ (payloadStep st pv n).map Prod.fst :=
        List.mem_map_of_mem Prod.fst hp
      have hsub : p.1 ∈ pv.map Prod.fst ∨ p.1 = n := by
        unfold payloadStep at hkey
        rcases hacc : dictGet st.acc n with _ | a <;> rw [hacc] at hkey <;>
          dsimp only at hkey
        · rcases hv : pyGet st.vals n with _ | v <;> rw [hv] at hkey <;>
            dsimp only at hkey
          · exact Or.inl hkey
          · exact keys_dictSet_subset pv n v p.1 hkey
        · by_cases hc : 0 < a.count
          · rw [if_pos hc] at hkey
            exact keys_dictSet_subset pv n _ p.1 hkey
          · rw [if_neg hc] at hkey
            rcases hv : pyGet st.vals n with _ | v <;> rw [hv] at hkey <;>
              dsimp only at hkey
            · exact Or.inl hkey
            · exact keys_dictSet_subset pv n v p.1 hkey
      rcases hsub with h | h
      · obtain ⟨q, hq, hq1⟩ := List.mem_map.mp h
        exact hq1 ▸ hpv q hq
      · exact h ▸ hf n (List.mem_cons_self n rest)

theorem payloadValues_keys (fields : List String) (st : St) :
    ∀ p ∈ payloadValues fields st, p.1 ∈ fields :=
  payload_fold_keys st fields fields [] (by intro p hp; cases hp)
    (fun _ h => h)

theorem postThingspeak_some (apiKey : String)
    (fieldsMap : List (String × String)) (values : List (String × Val))
    (hval : values ≠ [])
    (hkeys : ∀ p ∈ values, p.1 ∈ fieldsMap.map Prod.fst)
    (hapi : "api_key" ∉ fieldsMap.map Prod.snd) :
    postThingspeak apiKey fieldsMap values
      = some (buildParams apiKey fieldsMap values) ∧
    2 ≤ (buildParams apiKey fieldsMap values).length := by
  rcases hv : values with _ | ⟨⟨n0, v0⟩, tl⟩
  · exact absurd hv hval
  · have hn0 : n0 ∈ fieldsMap.map Prod.fst :=
      hkeys (n0, v0) (by rw [hv]; exact List.mem_cons_self _ tl)
    obtain ⟨nf, hnf, hfst⟩ := List.mem_map.mp hn0
    obtain ⟨L1, L2, hsplit⟩ := List.append_of_mem hnf
    have hget0 : dictGet values n0 = some v0 := by
      rw [hv]; simp [dictGet]
    -- the api_key binding survives every step
    have hstepP : ∀ params nf2, (dictGet params "api_key").isSome = true →
        (dictGet (buildStep values params nf2) "api_key").isSome = true := by
      intro params nf2 hP
      unfold buildStep
      rcases dictGet values nf2.1 with _ | v <;> dsimp only
      · exact hP
      · by_cases hs : nf2.1 = "servoFan" ∨ nf2.1 = "servoCurtain" ∨
            nf2.1 = "LedL"
        · rw [if_pos hs]
          exact isSome_dictGet_dictSet params nf2.2 "api_key" _ hP
        · rw [if_neg hs]
          exact isSome_dictGet_dictSet params nf2.2 "api_key" v hP
    -- an already-bound field key survives every step
    have hstepQ : ∀ (f : String) params nf2, (dictGet params f).isSome = true →
        (dictGet (buildStep values params nf2) f).isSome = true := by
      intro f params nf2 hQ
      unfold buildStep
      rcases dictGet values nf2.1 with _ | v <;> dsimp only
      · exact hQ
      · by_cases hs : nf2.1 = "servoFan" ∨ nf2.1 = "servoCurtain" ∨
            nf2.1 = "LedL"
        · rw [if_pos hs]
          exact isSome_dictGet_dictSet params nf2.2 f _ hQ
        · rw [if_neg hs]
          exact isSome_dictGet_dictSet params nf2.2 f v hQ
    have hPfin : (dictGet (buildParams apiKey fieldsMap values)
        "api_key").isSome = true := by
      unfold buildParams
      refine foldl_preserve
        (P := fun params => (dictGet params "api_key").isSome = true)
        (fun pa b h => hstepP pa b h) fieldsMap _ (by simp [dictGet])
    have hQfin : (dictGet (buildParams apiKey fieldsMap values)
        nf.2).isSome = true := by
      unfold buildParams
      rw [hsplit, List.foldl_append, List.foldl_cons]
      refine foldl_preserve
        (P := fun params => (dictGet params nf.2).isSome = true)
        (fun pa b h => hstepQ nf.2 pa b h) L2 _ ?_
      have : buildStep values (L1.foldl (buildStep values)
          [("api_key", Val.str apiKey)]) nf
          = dictSet (L1.foldl (buildStep values)
              [("api_key", Val.str apiKey)]) nf.2
              (if nf.1 = "servoFan" ∨ nf.1 = "servoCurtain" ∨ nf.1 = "LedL"
               then Val.num (if toBool (some v0) = some true then 1 else 0)
               else v0) := by
        unfold buildStep
        rw [hfst, hget0]
        dsimp only
        split_ifs <;> rfl
      rw [this]
      simp [dictGet_dictSet_self]
    have hne : nf.2 ≠ "api_key" := by
      intro he
      exact hapi (he ▸ List.mem_map_of_mem Prod.snd hnf)
    have hlen : 2 ≤ (buildParams apiKey fieldsMap values).length :=
      length_ge_two_of_get _ hne hQfin hPfin
    have hnot1 : ¬ (buildParams apiKey fieldsMap values).length = 1 := by
      omega
    unfold postThingspeak
    dsimp only
    rw [← hv, if_neg hnot1]
    exact ⟨rfl, hlen⟩

theorem sendPeriodic_rateLimited (fieldsMap : List (String × String))
    (T : ℚ) (apiKey : String) (st : St) (now : ℚ) (net : NetResult)
    (hnf : ¬ (st.wakeupDue ≠ 0 ∧ st.wakeupDue ≤ now))
    (hlt : now - st.last < T) :
    sendPeriodic fieldsMap T apiKey st now net = (st, Outcome.rateLimited) := by
  unfold sendPeriodic
  dsimp only
  rw [if_pos ⟨hnf, hlt⟩]

theorem sendPeriodic_sent (fieldsMap : List (String × String)) (T : ℚ)
    (apiKey : String) (st : St) (now : ℚ) (c : ℕ) (b : String)
    (helig : (st.wakeupDue ≠ 0 ∧ st.wakeupDue ≤ now) ∨ T ≤ now - st.last)
    (hpv : payloadValues (fieldsMap.map Prod.fst) st ≠ [])
    (hapi : "api_key" ∉ fieldsMap.map Prod.snd) :
    sendPeriodic fieldsMap T apiKey st now (NetResult.ok c b)
      = (resetSt st now,
         if pyStrip b = "0" then Outcome.softRejected else Outcome.sentOk) := by
  unfold sendPeriodic
  dsimp only
  rw [if_neg (by
    rintro ⟨h1, h2⟩
    rcases helig with h | h
    · exact h1 h
    · exact absurd h2 (not_lt.mpr h))]
  rw [if_neg hpv]
  obtain ⟨hpost, _⟩ := postThingspeak_some apiKey fieldsMap
    (payloadValues (fieldsMap.map Prod.fst) st) hpv
    (payloadValues_keys (fieldsMap.map Prod.fst) st) hapi
  rw [hpost]

/-- C3: with no deferred deadline, credentials available and non-empty
payloads, an event at time `a ≥ T` past the (epoch-zero) initial
`lastFlushAt` flushes and resets the record; a second event at
`a + (T - ε)` (that is, `ε` short of the window) is rate-limited and the
scheduler changes nothing for the subject; a third event at `a + d` with
`d ≥ T` flushes again; and in general whenever neither the deadline
condition nor `now - lastFlushAt ≥ T` holds, `_send_periodic` returns the
state unchanged. -/
theorem C3_rate_limit (fieldsMap : List (String × String)) (T : ℚ)
    (apiKey : String) (a ε d : ℚ) (m1 m2 m3 : List Meas)
    (c1 c3 : ℕ) (b1 b3 : String) (net2 : NetResult)
    (ha : T ≤ a) (hε : 0 < ε) (hεT : ε ≤ T) (hd : T ≤ d)
    (hpv1 : payloadValues (fieldsMap.map Prod.fst)
        (processMeasures initSt m1) ≠ [])
    (hpv3 : payloadValues (fieldsMap.map Prod.fst)
        (processMeasures
          (processMeasures (resetSt (processMeasures initSt m1) a) m2)
          m3) ≠ [])
    (hapi : "api_key" ∉ fieldsMap.map Prod.snd) :
    sendPeriodic fieldsMap T apiKey (processMeasures initSt m1) a
        (NetResult.ok c1 b1)
      = (resetSt (processMeasures initSt m1) a,
         if pyStrip b1 = "0" then Outcome.softRejected else Outcome.sentOk) ∧
    sendPeriodic fieldsMap T apiKey
        (processMeasures (resetSt (processMeasures initSt m1) a) m2)
        (a + (T - ε)) net2
      = (processMeasures (resetSt (processMeasures initSt m1) a) m2,
         Outcome.rateLimited) ∧
    sendPeriodic fieldsMap T apiKey
        (processMeasures
          (processMeasures (resetSt (processMeasures initSt m1) a) m2) m3)
        (a + d) (NetResult.ok c3 b3)
      = (resetSt
          (processMeasures
            (processMeasures (resetSt (processMeasures initSt m1) a) m2) m3)
          (a + d),
         if pyStrip b3 = "0" then Outcome.softRejected else Outcome.sentOk) ∧
    (∀ (st : St) (now : ℚ) (net : NetResult),
      ¬ (st.wakeupDue ≠ 0 ∧ st.wakeupDue ≤ now) → now - st.last < T →
      sendPeriodic fieldsMap T apiKey st now net = (st, Outcome.rateLimited)) := by
  have h1last : (processMeasures initSt m1).last = 0 :=
    (processMeasures_timers m1 initSt).1
  have h3last :
      (processMeasures (resetSt (processMeasures initSt m1) a) m2).last
        = a := (processMeasures_timers m2 _).1
  have h3due :
      (processMeasures (resetSt (processMeasures initSt m1) a) m2).wakeupDue
        = 0 := (processMeasures_timers m2 _).2
  have h5last :
      (processMeasures
        (processMeasures (resetSt (processMeasures initSt m1) a) m2)
        m3).last = a := (processMeasures_timers m3 _).1.trans h3last
  have h5due :
      (processMeasures
        (processMeasures (resetSt (processMeasures initSt m1) a) m2)
        m3).wakeupDue = 0 := (processMeasures_timers m3 _).2.trans h3due
  refine ⟨?_, ?_, ?_, ?_⟩
  · exact sendPeriodic_sent fieldsMap T apiKey _ a c1 b1
      (Or.inr (by rw [h1last]; linarith)) hpv1 hapi
  · exact sendPeriodic_rateLimited fieldsMap T apiKey _ _ net2
      (by rw [h3due]; simp) (by rw [h3last]; linarith)
  · exact sendPeriodic_sent fieldsMap T apiKey _ _ c3 b3
      (Or.inr (by rw [h5last]; linarith)) hpv3 hapi
  · exact fun st now net hnf hlt =>
      sendPeriodic_rateLimited fieldsMap T apiKey st now net hnf hlt

/-- C3 witness: `T = 60`, events at `t = 60`, `t = 60 + 59` and
`t = 60 + 60`, each carrying one numeric `temp` reading; the first and
third flush (the sink answering `"5"`), the second is rate-limited. -/
theorem C3_witness :
    sendPeriodic [("temp", "field1")] 60 "k"
        (processMeasures initSt [⟨some "temp", none, some (Val.num 20), 0⟩])
        60 (NetResult.ok 200 "5")
      = (resetSt
          (processMeasures initSt [⟨some "temp", none, some (Val.num 20), 0⟩])
          60,
         if pyStrip "5" = "0" then Outcome.softRejected else Outcome.sentOk) ∧
    sendPeriodic [("temp", "field1")] 60 "k"
        (processMeasures
          (resetSt
            (processMeasures initSt
              [⟨some "temp", none, some (Val.num 20), 0⟩]) 60)
          [⟨some "temp", none, some (Val.num 22), 0⟩])
        (60 + (60 - 1)) (NetResult.ok 200 "5")
      = (processMeasures
          (resetSt
            (processMeasures initSt
              [⟨some "temp", none, some (Val.num 20), 0⟩]) 60)
          [⟨some "temp", none, some (Val.num 22), 0⟩],
         Outcome.rateLimited) ∧
    sendPeriodic [("temp", "field1")] 60 "k"
        (processMeasures
          (processMeasures
            (resetSt
              (processMeasures initSt
                [⟨some "temp", none, some (Val.num 20), 0⟩]) 60)
            [⟨some "temp", none, some (Val.num 22), 0⟩])
          [⟨some "temp", none, some (Val.num 24), 0⟩])
        (60 + 60) (NetResult.ok 200 "5")
      = (resetSt
          (processMeasures
            (processMeasures
              (resetSt
                (processMeasures initSt
                  [⟨some "temp", none, some (Val.num 20), 0⟩]) 60)
              [⟨some "temp", none, some (Val.num 22), 0⟩])
            [⟨some "temp", none, some (Val.num 24), 0⟩])
          (60 + 60),
         if pyStrip "5" = "0" then Outcome.softRejected else Outcome.sentOk) := by
  obtain ⟨h1, h2, h3, _⟩ := C3_rate_limit [("temp", "field1")] 60 "k"
    60 1 60
    [⟨some "temp", none, some (Val.num 20), 0⟩]
    [⟨some "temp", none, some (Val.num 22), 0⟩]
    [⟨some "temp", none, some (Val.num 24), 0⟩]
    200 200 "5" "5" (NetResult.ok 200 "5")
    (by norm_num) (by norm_num) (by norm_num) (by norm_num)
    (by decide) (by decide) (by decide)
  exact ⟨h1, h2, h3⟩

/-! ### C2: a wakeup guarantees a flush by the rate-limit boundary -/

theorem sendPeriodic_forced_flushes (fieldsMap : List (String × String))
    (T : ℚ) (apiKey : String) (st : St) (now : ℚ) (net : NetResult)
    (hf : st.wakeupDue ≠ 0 ∧ st.wakeupDue ≤ now) :
    (sendPeriodic fieldsMap T apiKey st now net).2 ≠ Outcome.rateLimited := by
  unfold sendPeriodic
  dsimp only
  rw [if_neg (fun hc => hc.1 hf)]
  by_cases hpv : payloadValues (fieldsMap.map Prod.fst) st = []
  · rw [if_pos hpv]
    exact fun h => nomatch h
  · rw [if_neg hpv]
    cases postThingspeak apiKey fieldsMap
        (payloadValues (fieldsMap.map Prod.fst) st) with
    | none => exact fun h => nomatch h
    | some params =>
        cases net with
        | raised => exact fun h => nomatch h
        | ok c b =>
            dsimp only
            split_ifs <;> exact fun h => nomatch h

/-- C2: a wakeup control event at `t0`, when `lastFlushAt = t1`, stores
`deferredFlushDeadline = t0 + max(0, T - (t0 - t1))`; when the wakeup
arrives inside the window (`t1 ≤ t0 ≤ t1 + T`) this deadline is exactly
`t1 + T`, and — with credentials resolving for the subject — any
background tick at a time `t2 ≥ t1 + T` performs a flush attempt for the
subject, with no inbound message needed after the wakeup. -/
theorem C2_wakeup_deadline (fieldsMap : List (String × String)) (T : ℚ)
    (b : BridgeSt) (topic : String) (key : String × String) (st : St)
    (t0 t1 t2 : ℚ) (apiKey : String)
    (credsOf : String × String → Option String)
    (netOf : String × String → NetResult)
    (creds0 : Option String) (net0 : NetResult)
    (hkey : parseTopic topic = some key)
    (hwake : pyEndsWith topic "/wakeup")
    (hinit : ¬ pyEndsWith topic "/initTimeshift")
    (halert : ¬ pyStartsWith topic "SC/alerts/")
    (hst : dictGet b.states key = some st)
    (hlast : st.last = t1)
    (h01 : t1 ≤ t0) (h0T : t0 ≤ t1 + T) (ht1 : 0 ≤ t1) (hT : 0 < T)
    (ht2 : t1 + T ≤ t2)
    (hcreds : credsOf key = some apiKey) :
    dictGet (onMsg fieldsMap T b topic Payload.malformed t0 creds0
        net0).1.states key
      = some { st with wakeupDue := t0 + max 0 (T - (t0 - t1)) } ∧
    t0 + max 0 (T - (t0 - t1)) = t1 + T ∧
    ∃ o : Outcome,
      dictGet (checkWakeupOutcomes fieldsMap T
          (onMsg fieldsMap T b topic Payload.malformed t0 creds0
            net0).1.states t2 credsOf netOf) key = some (some o) ∧
      o ≠ Outcome.rateLimited := by
  have hmax : t0 + max 0 (T - (t0 - t1)) = t1 + T := by
    rw [max_eq_right (by linarith)]
    ring
  have hstW : dictGet (onMsg fieldsMap T b topic Payload.malformed t0 creds0
      net0).1.states key
      = some { st with wakeupDue := t0 + max 0 (T - (t0 - t1)) } := by
    unfold onMsg
    rw [hkey]
    have hens : ensureState b.states key = b.states := by
      unfold ensureState
      rw [hst]
    dsimp only
    rw [hens, hst]
    dsimp only [Option.getD_some]
    rw [if_neg hinit, if_pos hwake, hlast]
    have hmeas : parseSenmlSafe Payload.malformed = [] := rfl
    rw [hmeas]
    rw [if_pos rfl, if_neg halert]
    dsimp only
    exact dictGet_dictSet_self b.states key _
  have hdueW : ({ st with wakeupDue := t0 + max 0 (T - (t0 - t1)) } :
      St).wakeupDue = t1 + T := hmax
  have htick : tickStep fieldsMap T t2 (credsOf key) (netOf key)
      { st with wakeupDue := t0 + max 0 (T - (t0 - t1)) }
      = ((sendPeriodic fieldsMap T apiKey
            { st with wakeupDue := t0 + max 0 (T - (t0 - t1)) } t2
            (netOf key)).1,
         some (sendPeriodic fieldsMap T apiKey
            { st with wakeupDue := t0 + max 0 (T - (t0 - t1)) } t2
            (netOf key)).2) := by
    unfold tickStep
    rw [if_pos ⟨by rw [hdueW]; linarith, by rw [hdueW]; exact ht2⟩, hcreds]
  refine ⟨hstW, hmax,
    (sendPeriodic fieldsMap T apiKey
      { st with wakeupDue := t0 + max 0 (T - (t0 - t1)) } t2
      (netOf key)).2, ?_, ?_⟩
  · unfold checkWakeupOutcomes
    rw [dictGet_map_apply
      (fun k stx => (tickStep fieldsMap T t2 (credsOf k) (netOf k) stx).2)
      _ key, hstW]
    show some ((tickStep fieldsMap T t2 (credsOf key) (netOf key)
        { st with wakeupDue := t0 + max 0 (T - (t0 - t1)) }).2) = _
    rw [htick]
  · exact sendPeriodic_forced_flushes fieldsMap T apiKey _ t2 (netOf key)
      ⟨by rw [hdueW]; exact ne_of_gt (by linarith), by rw [hdueW]; exact ht2⟩

/-- C2 witness: `T = 10`, `t1 = 100`, wakeup at `t0 = 105` on topic
`SC/U1/R1/wakeup`, tick at `t2 = 110 = t1 + T`. -/
theorem C2_witness :
    dictGet (onMsg [("temp", "field1")] 10
        ⟨[(("U1", "R1"),
           { last := 100, wakeupDue := 0, vals := [("temp", none)],
             acc := [("temp", ⟨0, 0⟩)] })], [], []⟩
        "SC/U1/R1/wakeup" Payload.malformed 105 none
        NetResult.raised).1.states ("U1", "R1")
      = some { last := 100, wakeupDue := 105 + max 0 (10 - (105 - 100)),
               vals := [("temp", none)], acc := [("temp", ⟨0, 0⟩)] } ∧
    (105 : ℚ) + max 0 (10 - (105 - 100)) = 100 + 10 ∧
    ∃ o : Outcome,
      dictGet (checkWakeupOutcomes [("temp", "field1")] 10
          (onMsg [("temp", "field1")] 10
            ⟨[(("U1", "R1"),
               { last := 100, wakeupDue := 0, vals := [("temp", none)],
                 acc := [("temp", ⟨0, 0⟩)] })], [], []⟩
            "SC/U1/R1/wakeup" Payload.malformed 105 none
            NetResult.raised).1.states
          110 (fun _ => some "k") (fun _ => NetResult.ok 200 "1"))
        ("U1", "R1") = some (some o) ∧
      o ≠ Outcome.rateLimited :=
  C2_wakeup_deadline [("temp", "field1")] 10
    ⟨[(("U1", "R1"),
       { last := 100, wakeupDue := 0, vals := [("temp", none)],
         acc := [("temp", ⟨0, 0⟩)] })], [], []⟩
    "SC/U1/R1/wakeup" ("U1", "R1")
    { last := 100, wakeupDue := 0, vals := [("temp", none)],
      acc := [("temp", ⟨0, 0⟩)] }
    105 100 110 "k" (fun _ => some "k") (fun _ => NetResult.ok 200 "1")
    none NetResult.raised
    (by decide) (by decide) (by decide) (by decide) rfl rfl
    (by norm_num) (by norm_num) (by norm_num) (by norm_num) (by norm_num)
    rfl

end Bridge
